import Mathlib

/-!
Verification of the `money` filter engine (rust-money crate).

The definitions below are a shallow embedding of the Rust sources:
`src/rust-money/src/filter/mod.rs`, `filter/category.rs`, `filter/date.rs`,
`order.rs` and `ext.rs`.  Mutating Rust methods become pure functions
returning the new state; `chrono::NaiveDate` is modelled by its proleptic
Gregorian day number (an integer), so `a.signed_duration_since(b).num_days()`
becomes `a - b`; the 32-bit float `amount` is modelled by a rational number
together with a distinguished NaN value, so that `f32::partial_cmp` (which
returns `None` when an operand is NaN) keeps its partiality.
-/

namespace Money

/-- Selection state of one category inside a filter (`ItemSelector` in
`filter/mod.rs`). -/
inductive ItemSelector
  | Discarded
  | Selected
deriving DecidableEq

/-- Rust `ItemSelector::toggle` flips the state in place. -/
def ItemSelector.toggle : ItemSelector → ItemSelector
  | .Discarded => .Selected
  | .Selected => .Discarded

/-- A named category with its selection state (`Category` tuple struct in
`filter/category.rs`; field `.0` is `name`, field `.1` is `selector`). -/
structure Category where
  name : String
  selector : ItemSelector
deriving DecidableEq

/-- Rust `CategoryFilter` in `filter/category.rs`. -/
inductive CategoryFilter
  | CategoryIgnored
  | Enabled (items : List Category)
deriving DecidableEq

/-- Rust `CategoryFilter::remove`: deletes the first category with the given name.
The Rust method mutates `self` and returns a `bool`; here the pair holds the
returned flag and the new state. -/
def CategoryFilter.remove (f : CategoryFilter) (category_name : String) :
    Bool × CategoryFilter :=
  match f with
  | .Enabled items =>
    match items.findIdx? (fun item => item.name == category_name) with
    | some index =>
      if items.length > 1 then (true, .Enabled (items.eraseIdx index))
      else (true, .CategoryIgnored)
    | none => (false, .Enabled items)
  | .CategoryIgnored => (false, .CategoryIgnored)

/-- Rust `CategoryFilter::with_each_selected`: true if the input list holds (at
least) all selected categories. -/
def CategoryFilter.with_each_selected (f : CategoryFilter)
    (category_names : List String) : Bool :=
  match f with
  | .CategoryIgnored => true
  | .Enabled categories =>
    (categories.filter (fun c => c.selector == .Selected)).all
      (fun c => category_names.contains c.name)

/-- Rust `CategoryFilter::among_any_selected`: true if the (optional) input
category name is among the selected ones. -/
def CategoryFilter.among_any_selected (f : CategoryFilter)
    (category_name : Option String) : Bool :=
  match f, category_name with
  | .CategoryIgnored, _ => true
  | .Enabled categories, none =>
    categories.all (fun c => c.selector == .Discarded)
  | .Enabled categories, some name =>
    (categories.filter (fun c => c.selector == .Selected)).any
      (fun c => c.name == name)

/-- Rust `chrono::NaiveDate`, modelled by its proleptic Gregorian day number;
`a.signed_duration_since(b).num_days()` is `a - b`. -/
abbrev NaiveDate := Int

/-- Day number of a calendar date (days-from-civil conversion, epoch
1970-01-01 = day 0), used to write the concrete dates appearing in the
sources' regression tests. -/
def NaiveDate.fromYmd (y : Int) (m d : Nat) : NaiveDate :=
  let yAdj : Int := if m ≤ 2 then y - 1 else y
  let era : Int := Int.fdiv yAdj 400
  let yoe : Int := yAdj - era * 400
  let mp : Nat := (m + 9) % 12
  let doy : Int := ((153 * mp + 2) / 5 + d : Nat) - 1
  let doe : Int := yoe * 365 + Int.fdiv yoe 4 - Int.fdiv yoe 100 + doy
  era * 146097 + doe - 719468

/-- Rust `NaiveDateFilter` in `filter/date.rs`. -/
inductive NaiveDateFilter
  | DateIgnored
  | Since (d : NaiveDate)
  | Until (d : NaiveDate)
  | Between (s e : NaiveDate)
deriving DecidableEq

/-- Rust `NaiveDateFilter::check_range`: `Between` when
`end.signed_duration_since(start).num_days() >= 0`, else `Since(start)`. -/
def NaiveDateFilter.check_range (start_date end_date : NaiveDate) :
    NaiveDateFilter :=
  if end_date - start_date ≥ 0 then .Between start_date end_date
  else .Since start_date

/-- Rust `NaiveDateFilter::set_range` over a pair of optional dates
(`OptionNaiveDateRange`). -/
def NaiveDateFilter.set_range (range : Option NaiveDate × Option NaiveDate) :
    NaiveDateFilter :=
  match range with
  | (none, none) => .DateIgnored
  | (some begin_date, none) => .Since begin_date
  | (none, some end_date) => .Until end_date
  | (some begin_date, some end_date) => check_range begin_date end_date

/-- Rust `NaiveDateFilter::set_beginning`: updates the start boundary only. -/
def NaiveDateFilter.set_beginning (f : NaiveDateFilter)
    (start_date : Option NaiveDate) : NaiveDateFilter :=
  match start_date with
  | some date =>
    match f with
    | .DateIgnored => .Since date
    | .Since _ => .Since date
    | .Until e => check_range date e
    | .Between _ e => check_range date e
  | none =>
    match f with
    | .DateIgnored => .DateIgnored
    | .Since _ => .DateIgnored
    | .Until e => .Until e
    | .Between _ e => .Until e

/-- Rust `NaiveDateFilter::set_end`: updates the end boundary only. -/
def NaiveDateFilter.set_end (f : NaiveDateFilter)
    (end_date : Option NaiveDate) : NaiveDateFilter :=
  match end_date with
  | some date =>
    match f with
    | .DateIgnored => .Until date
    | .Since b => check_range b date
    | .Between b _ => check_range b date
    | .Until _ => .Until date
  | none =>
    match f with
    | .DateIgnored => .DateIgnored
    | .Until _ => .DateIgnored
    | .Since b => .Since b
    | .Between b _ => .Since b

/-- Rust `NaiveDateFilter::is_date_allowed`. -/
def NaiveDateFilter.is_date_allowed (f : NaiveDateFilter)
    (date : Option NaiveDate) : Bool :=
  match f, date with
  | .DateIgnored, _ => true
  | _, none => false
  | .Until e, some d => decide (e - d ≥ 0)
  | .Since s, some d => decide (d - s ≥ 0)
  | .Between s e, some d => decide (d - s ≥ 0) && decide (e - d ≥ 0)

/-- The end boundary held by a date-filter state, when any. -/
def NaiveDateFilter.endBound : NaiveDateFilter → Option NaiveDate
  | .Until e => some e
  | .Between _ e => some e
  | .DateIgnored => none
  | .Since _ => none

/-- Rust `TransactionState` in `order.rs`; the ordinal (0,1,2) is used as an
array index by the state filter. -/
inductive TransactionState
  | Pending
  | InProgress
  | Done
deriving DecidableEq

/-- A 32-bit float amount, modelled as a rational together with NaN; this is
exactly what the comparison and accumulation logic of the sources observes
(`f32::partial_cmp` is `none` whenever an operand is NaN). -/
inductive F32
  | nan
  | val (q : ℚ)
deriving DecidableEq

/-- Rust `f32::partial_cmp`: `none` when an operand is NaN. -/
def F32.fcmp : F32 → F32 → Option Ordering
  | .nan, _ => none
  | _, .nan => none
  | .val a, .val b => some (compare a b)

/-- Rust `f32` addition (`+=` accumulation in `ext.rs`); NaN propagates. -/
def F32.add : F32 → F32 → F32
  | .nan, _ => .nan
  | _, .nan => .nan
  | .val a, .val b => .val (a + b)

/-- Rust `Order` in `order.rs`. -/
structure Order where
  date : Option NaiveDate
  description : String
  amount : F32
  resource : Option String
  tags : List String
  state : TransactionState
  visible : Bool
deriving DecidableEq

/-- Rust `Order::default`. -/
def Order.default : Order :=
  { date := none
    description := ""
    amount := .val 0
    resource := none
    tags := []
    state := .Pending
    visible := true }

/-- Rust `Order::set_state` (`order.rs`): `Done` triggers a default date when none
is set, then the state is stored.  The source reads the current local day
from the system clock (`Local::today().naive_local()`); it is passed here as
the explicit argument `today`. -/
def Order.set_state (o : Order) (today : NaiveDate)
    (state : TransactionState) : Order :=
  let o1 :=
    match state with
    | .Done => if o.date = none then { o with date := some today } else o
    | _ => o
  { o1 with state := state }

/-- Rust `VisibilityFilter` in `filter/mod.rs`. -/
inductive VisibilityFilter
  | VisibilityIgnored
  | VisibleOnly
  | HiddenOnly
deriving DecidableEq

/-- Rust `OrderingPreference` in `ext.rs`. -/
inductive OrderingPreference
  | ByDate
  | ByDescription
  | ByAmount
  | ById
deriving DecidableEq

/-- Rust `OrderingDirection` in `ext.rs`. -/
inductive OrderingDirection
  | Ascending
  | Descending
deriving DecidableEq

/-- Rust `Filter` in `filter/mod.rs`: the `[ItemSelector; 3]` state array is a
triple indexed by the transaction-state ordinal; `ordering` and `direction`
are the sorting preferences consumed by `apply_filter` in `ext.rs`. -/
structure Filter where
  visibility : VisibilityFilter
  date_option : NaiveDateFilter
  state_option : ItemSelector × ItemSelector × ItemSelector
  resource_option : CategoryFilter
  tag_option : CategoryFilter
  ordering : OrderingPreference
  direction : OrderingDirection

/-- Rust `Filter::default`: visible only, no date bound, all three states
selected, both category filters ignored, by id ascending. -/
def Filter.default : Filter :=
  { visibility := .VisibleOnly
    date_option := .DateIgnored
    state_option := (.Selected, .Selected, .Selected)
    resource_option := .CategoryIgnored
    tag_option := .CategoryIgnored
    ordering := .ById
    direction := .Ascending }

/-- Rust `state_option[order.state as usize]`: the state array indexed by the
transaction-state ordinal. -/
def getStateOption : ItemSelector × ItemSelector × ItemSelector →
    TransactionState → ItemSelector
  | (p, _, _), .Pending => p
  | (_, i, _), .InProgress => i
  | (_, _, d), .Done => d

/-- The `visibility_match` conjunct of `Filter::is_order_allowed`. -/
def Filter.visibility_match (f : Filter) (o : Order) : Bool :=
  match f.visibility with
  | .VisibilityIgnored => true
  | .VisibleOnly => o.visible
  | .HiddenOnly => !o.visible

/-- The `state_match` conjunct of `Filter::is_order_allowed`. -/
def Filter.state_match (f : Filter) (o : Order) : Bool :=
  getStateOption f.state_option o.state == .Selected

/-- The `date_match` conjunct of `Filter::is_order_allowed` (inlined date
logic of `filter/mod.rs`, lines 182-207). -/
def Filter.date_match (f : Filter) (o : Order) : Bool :=
  match f.date_option with
  | .DateIgnored => true
  | .Until e =>
    match o.date with
    | some date => decide (e - date ≥ 0)
    | none => false
  | .Since s =>
    match o.date with
    | some date => decide (date - s ≥ 0)
    | none => false
  | .Between s e =>
    match o.date with
    | some date => decide (date - s ≥ 0) && decide (e - date ≥ 0)
    | none => false

/-- The `tag_match` conjunct of `Filter::is_order_allowed` (lines 209-226), whose
source comment reads: if all tags are discarded, the order will be
rejected; unknown tags are not filtered. -/
def Filter.tag_match (f : Filter) (o : Order) : Bool :=
  match f.tag_option with
  | .CategoryIgnored => true
  | .Enabled tags =>
    if !o.tags.isEmpty then
      !(o.tags.all fun tag =>
        match tags.find? (fun item => item.name == tag) with
        | some item => item.selector == .Discarded
        | none => false)
    else true

/-- The `resource_match` conjunct of `Filter::is_order_allowed`
(lines 228-242). -/
def Filter.resource_match (f : Filter) (o : Order) : Bool :=
  match f.resource_option with
  | .CategoryIgnored => true
  | .Enabled resources =>
    match o.resource with
    | some resource =>
      match resources.find? (fun item => item.name == resource) with
      | some item => item.selector == .Selected
      | none => true
    | none => resources.all (fun item => item.selector == .Discarded)

/-- Rust `Filter::is_order_allowed`: conjunction of the five sub-predicates. -/
def Filter.is_order_allowed (f : Filter) (o : Order) : Bool :=
  f.visibility_match o && f.state_match o && f.date_match o &&
    f.tag_match o && f.resource_match o

/-- Insertion step of a sort whose comparator may fail: `none` models the
panic raised by `.expect(..)` inside the `ByAmount` arm of
`apply_filter` (`ext.rs`, lines 215-229). -/
def insertByM (cmp : α → α → Option Ordering) (x : α) :
    List α → Option (List α)
  | [] => some [x]
  | y :: ys =>
    match cmp x y with
    | none => none
    | some .gt =>
      match insertByM cmp x ys with
      | none => none
      | some rest => some (y :: rest)
    | some _ => some (x :: y :: ys)

/-- Sort with a fallible comparator; `none` as soon as the comparator fails
on any compared pair (a comparison failure in Rust's `sort_by` closure is a
panic that aborts the whole sort). -/
def sortByM (cmp : α → α → Option Ordering) : List α → Option (List α)
  | [] => some []
  | x :: xs =>
    match sortByM cmp xs with
    | none => none
    | some s => insertByM cmp x s

/-- The `ByAmount` arm of `Vec<Order>::apply_filter` (`ext.rs`): admitted
orders are paired with their original index, then sorted by
`amount.partial_cmp(..).expect(..)` in the requested direction.  `none`
models the panic of the `expect`. -/
def apply_filter_amount (orders : List Order) (f : Filter) :
    Option (List (Nat × Order)) :=
  let filtered := orders.enum.filter fun p => f.is_order_allowed p.2
  match f.direction with
  | .Ascending => sortByM (fun a b => F32.fcmp a.2.amount b.2.amount) filtered
  | .Descending => sortByM (fun a b => F32.fcmp b.2.amount a.2.amount) filtered

/-- Rust `CategoryType` in `ext.rs`. -/
inductive CategoryType
  | Resource
  | Tag
deriving DecidableEq

/-- Rust `CategoryAmount` in `ext.rs`: the four amount buckets. -/
structure CategoryAmount where
  current : F32
  pending : F32
  in_progress : F32
  expected : F32
deriving DecidableEq

/-- The bucket sums accumulated by the `update_amount` closure of
`calculate_category_amount` over the selected orders. -/
def sumAmounts (selected : List Order) : CategoryAmount :=
  { current :=
      ((selected.filter fun o => o.state == .Done).map Order.amount).foldl
        F32.add (.val 0)
    pending :=
      ((selected.filter fun o => o.state == .Pending).map Order.amount).foldl
        F32.add (.val 0)
    in_progress :=
      ((selected.filter fun o => o.state == .InProgress).map
        Order.amount).foldl F32.add (.val 0)
    expected := (selected.map Order.amount).foldl F32.add (.val 0) }

/-- Rust `Vec<Order>::calculate_category_amount` (`ext.rs`, lines 130-181):
orders are kept when visible, carrying the category (resource equality or
tag membership according to `kind`) and admitted by the date filter built
from the range; the buckets are returned only when at least one order was
kept (`nb_orders > 0`). -/
def calculate_category_amount (orders : List Order) (kind : CategoryType)
    (category : String) (date_range : Option NaiveDate × Option NaiveDate) :
    Option CategoryAmount :=
  let date_filter := NaiveDateFilter.set_range date_range
  match kind with
  | .Resource =>
    let selected := orders.filter fun o =>
      (o.visible && (o.resource == some category)) &&
        date_filter.is_date_allowed o.date
    if selected.length > 0 then some (sumAmounts selected) else none
  | .Tag =>
    let selected := orders.filter fun o =>
      (o.visible && o.tags.contains category) &&
        date_filter.is_date_allowed o.date
    if selected.length > 0 then some (sumAmounts selected) else none

/-- C4: `is_date_allowed` returns true in the `DateIgnored` state (also for a
missing date); returns false in any other state when the date is missing; and
otherwise admits exactly the dates `d` with `s ≤ d` under `Since s`, `d ≤ e`
under `Until e`, and `s ≤ d ∧ d ≤ e` under `Between s e`, both boundaries
inclusive at whole-day granularity. -/
theorem C4_is_date_allowed (f : NaiveDateFilter) (d : Option NaiveDate) :
    f.is_date_allowed d = true ↔
      match f, d with
      | .DateIgnored, _ => True
      | .Since _, none => False
      | .Until _, none => False
      | .Between _ _, none => False
      | .Since s, some x => s ≤ x
      | .Until e, some x => x ≤ e
      | .Between s e, some x => s ≤ x ∧ x ≤ e := by
  cases f <;> cases d <;>
    simp [NaiveDateFilter.is_date_allowed]

/-- C5: `check_range start end` produces `Between start end` exactly when
`start ≤ end` (zero-length windows included) and otherwise `Since start`,
discarding the end bound; in particular `check_range 2021-06-23 2020-05-05`
yields `Since 2021-06-23`. -/
theorem C5_check_range :
    (∀ s e : NaiveDate, NaiveDateFilter.check_range s e =
        if s ≤ e then .Between s e else .Since s) ∧
      NaiveDateFilter.check_range (NaiveDate.fromYmd 2021 6 23)
          (NaiveDate.fromYmd 2020 5 5) =
        .Since (NaiveDate.fromYmd 2021 6 23) := by
  constructor
  · intro s e
    simp only [NaiveDateFilter.check_range, ge_iff_le, sub_nonneg]
  · decide

/-- C8: `among_any_selected` always admits in the ignored state; in the
enabled state a `none` query is admitted iff every listed category is
discarded, and a `some name` query is admitted iff some selected entry
carries that name (absent or merely-discarded names are rejected). -/
theorem C8_among_any_selected (f : CategoryFilter) (q : Option String) :
    f.among_any_selected q = true ↔
      match f, q with
      | .CategoryIgnored, _ => True
      | .Enabled cats, none => ∀ c ∈ cats, c.selector = .Discarded
      | .Enabled cats, some n =>
        ∃ c ∈ cats, c.selector = .Selected ∧ c.name = n := by
  cases f with
  | CategoryIgnored => cases q <;> simp [CategoryFilter.among_any_selected]
  | Enabled cats =>
    cases q with
    | none => simp [CategoryFilter.among_any_selected]
    | some n =>
      simp [CategoryFilter.among_any_selected, List.any_eq_true,
        List.mem_filter]

/-- C10: `set_state` always stores the requested state; the date is set to
the current day exactly when the new state is `Done` and no date was set;
every other field is unchanged. -/
theorem C10_set_state (o : Order) (today : NaiveDate)
    (s : TransactionState) :
    (o.set_state today s).state = s ∧
      (o.set_state today s).date =
        (if s = .Done ∧ o.date = none then some today else o.date) ∧
      (o.set_state today s).description = o.description ∧
      (o.set_state today s).amount = o.amount ∧
      (o.set_state today s).resource = o.resource ∧
      (o.set_state today s).tags = o.tags ∧
      (o.set_state today s).visible = o.visible := by
  cases s <;> by_cases h : o.date = none <;>
    simp [Order.set_state, h]

/-- The returned flag of `CategoryFilter::remove` on an enabled filter is
true exactly when some entry carries the requested name. -/
theorem remove_fst_eq_any (items : List Category) (name : String) :
    ((CategoryFilter.Enabled items).remove name).1 =
      items.any (fun c => c.name == name) := by
  rw [← List.findIdx?_isSome]
  unfold CategoryFilter.remove
  rcases h : items.findIdx? (fun item => item.name == name) with _ | i <;>
    simp [h, apply_ite]

/-- C6: `remove` succeeds iff the filter is enabled and some entry carries
the name; on failure the state is untouched; on success a singleton list
collapses to `CategoryIgnored`, otherwise only the first entry with that
name (at index `i`) is deleted and the surrounding order is preserved. -/
theorem C6_remove (f : CategoryFilter) (name : String) :
    ((f.remove name).1 = true ↔
        ∃ items, f = .Enabled items ∧ ∃ c ∈ items, c.name = name) ∧
      ((f.remove name).1 = false → (f.remove name).2 = f) ∧
      (∀ items i, f = .Enabled items →
        items.findIdx? (fun item => item.name == name) = some i →
        (f.remove name).2 =
          if items.length = 1 then .CategoryIgnored
          else .Enabled (items.take i ++ items.drop (i + 1))) := by
  refine ⟨?_, ?_, ?_⟩
  · cases f with
    | CategoryIgnored => simp [CategoryFilter.remove]
    | Enabled items =>
      rw [remove_fst_eq_any]
      simp [List.any_eq_true]
  · intro h
    cases f with
    | CategoryIgnored => rfl
    | Enabled items =>
      unfold CategoryFilter.remove at h ⊢
      rcases hidx : items.findIdx? (fun item => item.name == name) with _ | i
      · simp only [hidx]
      · simp only [hidx] at h
        split at h <;> simp at h
  · intro items i hf hidx
    subst hf
    have hne : items ≠ [] := by
      intro h0
      subst h0
      simp at hidx
    unfold CategoryFilter.remove
    simp only [hidx]
    split
    · rename_i hgt
      rw [if_neg (by omega)]
      simp [List.eraseIdx_eq_take_drop_succ]
    · rename_i hgt
      have hlen : items.length = 1 := by
        have : items.length ≠ 0 := fun h0 => hne (List.length_eq_zero.mp h0)
        omega
      rw [if_pos hlen]

/-- C6 witness: applying `C6_remove` at concrete inputs — removing the only
entry collapses the filter, removing one of two keeps the other, removal on
an ignored filter leaves it ignored. -/
theorem C6_remove_witness :
    ((CategoryFilter.Enabled [⟨"A", .Selected⟩]).remove ("A")).2 =
        .CategoryIgnored ∧
      ((CategoryFilter.Enabled [⟨"A", .Selected⟩, ⟨"B", .Selected⟩]).remove
          ("A")).1 = true ∧
      ((CategoryFilter.Enabled [⟨"A", .Selected⟩, ⟨"B", .Selected⟩]).remove
          ("A")).2 = .Enabled [⟨"B", .Selected⟩] ∧
      ((CategoryFilter.CategoryIgnored).remove ("A")).2 = .CategoryIgnored := by
  refine ⟨?_, ?_, ?_, ?_⟩
  · have h := (C6_remove (.Enabled [⟨"A", .Selected⟩]) ("A")).2.2
      [⟨"A", .Selected⟩] 0 rfl (by decide)
    simpa using h
  · exact (C6_remove (.Enabled [⟨"A", .Selected⟩, ⟨"B", .Selected⟩])
      ("A")).1.mpr ⟨_, rfl, ⟨"A", .Selected⟩, by decide, rfl⟩
  · have h := (C6_remove (.Enabled [⟨"A", .Selected⟩, ⟨"B", .Selected⟩])
      ("A")).2.2 [⟨"A", .Selected⟩, ⟨"B", .Selected⟩] 0 rfl (by decide)
    simpa using h
  · exact (C6_remove .CategoryIgnored ("A")).2.1 (by decide)

/-- Presence of a guarded `some`: `isSome` of `if c then some x else none`
holds exactly when the guard does. -/
theorem isSome_ite_some {α : Type} {c : Prop} [Decidable c] {x : α} :
    (if c then some x else none).isSome = true ↔ c := by
  split <;> simp_all

/-- C9: the category aggregation returns `none` exactly when no order is
visible, carries the requested category (resource equality or tag
membership according to the kind) and is admitted by the date filter; with
at least one such order it returns a bucket record. -/
theorem C9_calculate_category_amount (orders : List Order)
    (kind : CategoryType) (category : String)
    (range : Option NaiveDate × Option NaiveDate) :
    (calculate_category_amount orders kind category range).isSome = true ↔
      ∃ o ∈ orders, o.visible = true ∧
        (match kind with
         | .Resource => o.resource = some category
         | .Tag => category ∈ o.tags) ∧
        (NaiveDateFilter.set_range range).is_date_allowed o.date = true := by
  cases kind <;>
    simp [calculate_category_amount, isSome_ite_some,
      List.length_pos_iff_exists_mem, List.mem_filter, List.contains,
      List.elem_iff, and_assoc]

/-- C1 counterexample: with the tag filter enabled with the single selected category named Car and
an order carrying no tags, the tag sub-predicate of `is_order_allowed`
admits the order although `with_each_selected` (the all-selected-present
policy the claim ascribes to it) rejects the empty tag list. -/
theorem C1_counterexample :
    Filter.tag_match
        { Filter.default with tag_option := .Enabled [⟨"Car", .Selected⟩] }
        Order.default = true ∧
      CategoryFilter.with_each_selected (.Enabled [⟨"Car", .Selected⟩]) [] =
        false := by
  decide

/-- C1 amended: the tag sub-predicate of `is_order_allowed` implements the
not-all-discarded policy: with an ignored tag filter every order is
admitted, and with an enabled one an order is admitted iff its tag list is
empty or some of its tags is not flagged `Discarded` by the filter (a tag
absent from the filter counts as not discarded). -/
theorem C1_amended_tag_match (f : Filter) (o : Order) :
    f.tag_match o = true ↔
      match f.tag_option with
      | .CategoryIgnored => True
      | .Enabled tags =>
        o.tags = [] ∨ ∃ t ∈ o.tags,
          ∀ c, tags.find? (fun item => item.name == t) = some c →
            c.selector ≠ .Discarded := by
  unfold Filter.tag_match
  rcases htag : f.tag_option with _ | tags <;> dsimp only
  · simp
  · have key : ∀ t : String,
        ((match tags.find? (fun item => item.name == t) with
          | some item => item.selector == ItemSelector.Discarded
          | none => false) = false) ↔
          (∀ c, tags.find? (fun item => item.name == t) = some c →
            c.selector ≠ .Discarded) := by
      intro t
      rcases hf : tags.find? (fun item => item.name == t) with _ | c <;>
        simp [hf]
    by_cases he : o.tags = []
    · simp [he]
    · rw [if_pos (by simp [he])]
      simp only [Bool.not_eq_true', List.all_eq_false, he, false_or,
        Bool.not_eq_true]
      exact exists_congr fun t => and_congr_right fun _ => key t

/-- C2 counterexample: with the resource filter enabled with the single selected category named
Bank and an order whose resource name Unknown is absent from the list, the resource sub-predicate of `is_order_allowed` admits the order
although `among_any_selected` (the strict policy the claim ascribes to it)
rejects the unknown name. -/
theorem C2_counterexample :
    Filter.resource_match
        { Filter.default with
            resource_option := .Enabled [⟨"Bank", .Selected⟩] }
        { Order.default with resource := some ("Unknown") } = true ∧
      CategoryFilter.among_any_selected (.Enabled [⟨"Bank", .Selected⟩])
        (some ("Unknown")) = false := by
  decide

/-- C2 amended: the resource sub-predicate of `is_order_allowed` admits, in
the enabled state, an order with no resource iff every listed category is
discarded, and an order with resource name `r` iff the first listed entry
named `r` (when there is one) is selected — a name absent from the list is
tacitly admitted. The ignored state admits everything. -/
theorem C2_amended_resource_match (f : Filter) (o : Order) :
    f.resource_match o = true ↔
      match f.resource_option, o.resource with
      | .CategoryIgnored, _ => True
      | .Enabled resources, none => ∀ c ∈ resources, c.selector = .Discarded
      | .Enabled resources, some r =>
        ∀ c, resources.find? (fun item => item.name == r) = some c →
          c.selector = .Selected := by
  unfold Filter.resource_match
  rcases hres : f.resource_option with _ | resources
  · simp
  · rcases hr : o.resource with _ | r
    · simp
    · rcases hf : resources.find? (fun item => item.name == r) with _ | c <;>
        simp [hf]

/-- C7 counterexample: `set_beginning` on `Until 2020-05-05` with the later
start 2021-06-23 yields `Since 2021-06-23`: the existing end boundary is
silently discarded, not preserved. -/
theorem C7_counterexample :
    (NaiveDateFilter.set_beginning (.Until (NaiveDate.fromYmd 2020 5 5))
          (some (NaiveDate.fromYmd 2021 6 23))).endBound = none ∧
      NaiveDateFilter.set_beginning (.Until (NaiveDate.fromYmd 2020 5 5))
          (some (NaiveDate.fromYmd 2021 6 23)) =
        .Since (NaiveDate.fromYmd 2021 6 23) := by
  decide

/-- C7 amended: `set_beginning none` reverts to `Until` when an end
boundary exists and to `DateIgnored` otherwise; `set_beginning (some s)`
keeps the end boundary `e` of a prior `Until`/`Between` state only when
`s ≤ e` — otherwise the end bound is silently discarded and the state
becomes `Since s`. -/
theorem C7_amended_set_beginning (f : NaiveDateFilter)
    (d : Option NaiveDate) :
    f.set_beginning d =
      match d, f with
      | none, .DateIgnored => .DateIgnored
      | none, .Since _ => .DateIgnored
      | none, .Until e => .Until e
      | none, .Between _ e => .Until e
      | some s, .DateIgnored => .Since s
      | some s, .Since _ => .Since s
      | some s, .Until e => if s ≤ e then .Between s e else .Since s
      | some s, .Between _ e => if s ≤ e then .Between s e else .Since s := by
  cases d <;> cases f <;>
    simp [NaiveDateFilter.set_beginning, NaiveDateFilter.check_range,
      ge_iff_le, sub_nonneg]

/-- C3: the `ByAmount` arm of `apply_filter` compares amounts with
`partial_cmp(..).expect(..)`, which panics as soon as an admitted order
carries a NaN amount; on the two-order list below the modelled sort reaches
that failure (`none`). -/
theorem C3_by_amount_panics_on_nan :
    apply_filter_amount
        [{ Order.default with amount := .nan },
          { Order.default with amount := .val 1 }]
        { Filter.default with ordering := .ByAmount } = none := by
  decide

end Money
